import Mathlib

/-!
Shallow embedding of src/src/Collection.ts from the Discordoo collection
library. JS Maps become association lists in insertion order, Math.random
draws become an explicit list of naturals in which entry i models the value
of the i-th Math.floor(Math.random() * bound) call, thrown errors become
Except.error, and the JS value undefined becomes Option.none.
-/

namespace Ddoo

variable {K V : Type}

/-- Modelled from the spec: the range utility (utils/range, not under src/).
Section 4.1 describes Algorithm A as building the index sequence 0..size and
Collection.ts calls range(size + 1), so range n is the list 0, 1, ..., n-1. -/
def range (n : Nat) : List Nat := List.range n

/-- Modelled from the spec: the swap utility (utils/swap, not under src/).
Section 4.1 describes the shuffle step as swapping the element at the randomly
chosen position with the element at position max, so swap l i j exchanges the
elements of l at positions i and j (identity when a position is out of range). -/
def swap (l : List Nat) (i j : Nat) : List Nat :=
  if i < l.length ∧ j < l.length then (l.set i (l.getD j 0)).set j (l.getD i 0) else l

/-- The ordered key-value container of Collection.ts, as its entry list in
insertion order. -/
structure Collection (K V : Type) where
  entries : List (K × V)
deriving DecidableEq

/-- JS Map.prototype.size: the number of entries. -/
def Collection.size (c : Collection K V) : Nat := c.entries.length

/-- Collection.ts lines 23-25: the collection is empty or not. -/
def Collection.empty (c : Collection K V) : Bool := c.size == 0

/-- The snapshot [...this.values()] in insertion order. -/
def Collection.valuesList (c : Collection K V) : List V := c.entries.map Prod.snd

/-- The snapshot [...this.keys()] in insertion order. -/
def Collection.keysList (c : Collection K V) : List K := c.entries.map Prod.fst

/-- JS Map.prototype.set: overwrite in place when the key is present,
append otherwise. -/
def setEntry [DecidableEq K] : List (K × V) → K → V → List (K × V)
  | [], k, v => [(k, v)]
  | e :: rest, k, v => if e.1 = k then (k, v) :: rest else e :: setEntry rest k v

/-- The value at the first matching key of an entry list, none when absent. -/
def lookupVal [DecidableEq K] (m : List (K × V)) (k : K) : Option V :=
  (m.find? (fun e => e.1 == k)).map Prod.snd

/-- JS Map.prototype.get: the value at the first matching key, none when the
key is absent (undefined). -/
def Collection.get? [DecidableEq K] (c : Collection K V) (k : K) : Option V :=
  lookupVal c.entries k

/-- JS Map.prototype.has. -/
def Collection.has [DecidableEq K] (c : Collection K V) (k : K) : Bool :=
  c.entries.any (fun e => e.1 == k)

/-- The Map constructor applied to a list of pairs sets each pair in order. -/
def Collection.ofList [DecidableEq K] (l : List (K × V)) : Collection K V :=
  ⟨l.foldl (fun m e => setEntry m e.1 e.2) []⟩

/-- Collection.ts lines 143-145: clone returns new Collection([...this]). -/
def Collection.clone [DecidableEq K] (c : Collection K V) : Collection K V :=
  Collection.ofList c.entries

/-- CollectionRandomOptions, with options.unique already normalized to a
boolean (Collection.ts line 39). -/
structure RandomOptions where
  unique : Bool
deriving DecidableEq

/-- Collection.ts lines 37-38: clamp the requested amount to the size, and
replace an absent, zero (falsy) or sub-1 amount with 1. -/
def clampAmount (size : Nat) : Option Nat → Nat
  | none => 1
  | some a =>
    let a1 := if a ≠ 0 ∧ a > size then size else a
    if a1 = 0 then 1 else a1

/-- Collection.ts line 42: the largeAmount flag, with the division
Math.floor(amount / size * 100) taken in exact arithmetic. -/
def largeAmount (size amount : Nat) : Bool :=
  decide (amount * 100 / size > (if size > 500 then if size > 1000 then 15 else 50 else 80))

/-- Collection.ts lines 48-55: the partial shuffle over range(size + 1).
Iteration i runs with max = size - i, and draws.getD i 0 models the value of
Math.floor(Math.random() * max) at that iteration. -/
def shuffledNumbers (draws : List Nat) (size : Nat) : List Nat :=
  (List.range size).foldl (fun rn i => swap rn (draws.getD i 0) (size - i)) (range (size + 1))

/-- Collection.ts lines 47-59 (Algorithm A): the first amount entries of the
shuffled index array are the chosen slots. -/
def algorithmA (draws : List Nat) (size amount : Nat) : List Nat :=
  (List.range amount).map (fun i => (shuffledNumbers draws size).getD i 0)

/-- Collection.ts lines 67-71: the rejection-sampling loop with unique slots.
Each list entry models one Math.floor(Math.random() * size) call; a draw
already present is discarded (the i -= 1 retry) and the loop stops once
amount slots are collected. The JS loop keeps drawing forever, so the model
returns the slots collected so far when the finite draw list runs out. -/
def rejectionUnique (amount : Nat) : List Nat → List Nat → List Nat
  | [], acc => acc
  | d :: rest, acc =>
    if amount ≤ acc.length then acc
    else if d ∈ acc then rejectionUnique amount rest acc
    else rejectionUnique amount rest (acc ++ [d])

/-- Collection.ts lines 60-76 (Algorithm B): rejection sampling when unique,
otherwise amount independent draws accepted as they come. -/
def algorithmB (draws : List Nat) (amount : Nat) (unique : Bool) : List Nat :=
  if unique then rejectionUnique amount draws []
  else (List.range amount).map (fun i => draws.getD i 0)

/-- Collection.ts lines 42-77: the slot indices backing the results array,
produced by Algorithm A when largeAmount and unique hold and by Algorithm B
otherwise. -/
def randomIndices (draws : List Nat) (size amount : Nat) (unique : Bool) : List Nat :=
  if largeAmount size amount && unique then algorithmA draws size amount
  else algorithmB draws amount unique

/-- The two return shapes of random: a single value (possibly undefined) or
the results array, whose entries are undefined when a slot is out of range. -/
inductive RandomResult (V : Type) where
  | single : Option V → RandomResult V
  | seq : List (Option V) → RandomResult V
deriving DecidableEq

/-- Collection.ts lines 33-80: random. The draw list models the successive
Math.floor(Math.random() * bound) results consumed by whichever branch runs. -/
def Collection.random (c : Collection K V) (amountArg : Option Nat)
    (options : RandomOptions) (draws : List Nat) : Except String (RandomResult V) :=
  let size := c.size
  if size < 1 then
    Except.error "Collection#random: Cannot get random elements from the empty collection"
  else
    let amount := clampAmount size amountArg
    let arr := c.valuesList
    let results : List (Option V) :=
      (randomIndices draws size amount options.unique).map (fun r => arr[r]?)
    if amount ≤ 1 then Except.ok (RandomResult.single (results.getD 0 none))
    else Except.ok (RandomResult.seq results)

/-- How many values a random call handed back: one for the single-value
shape, the length of the results array otherwise. -/
def countValues : Except String (RandomResult V) → Nat
  | Except.error _ => 0
  | Except.ok (RandomResult.single _) => 1
  | Except.ok (RandomResult.seq l) => l.length

/-- The return option of CollectionFilterOptions. -/
inductive FilterReturn where
  | array
  | map
  | collection
deriving DecidableEq

/-- CollectionFilterOptions: the optional return field. -/
structure FilterOptions where
  ret : Option FilterReturn
deriving DecidableEq

/-- The three result shapes of Collection.ts filter. -/
inductive FilterResult (K V : Type) where
  | array : List (K × V) → FilterResult K V
  | map : List (K × V) → FilterResult K V
  | collection : Collection K V → FilterResult K V
deriving DecidableEq

/-- Collection.ts lines 97-115 for the map and collection shapes: iterate the
entries and set the pair into the accumulator when the predicate holds. -/
def filterFold [DecidableEq K] (p : V → K → Bool) (l : List (K × V))
    (acc : List (K × V)) : List (K × V) :=
  l.foldl (fun rs e => if p e.2 e.1 then setEntry rs e.1 e.2 else rs) acc

/-- Collection.ts lines 87-118: filter, dispatching on options.return with
the array shape as the default case. -/
def Collection.filter [DecidableEq K] (c : Collection K V) (p : V → K → Bool)
    (options : FilterOptions) : FilterResult K V :=
  match options.ret with
  | some FilterReturn.map => FilterResult.map (filterFold p c.entries [])
  | some FilterReturn.collection => FilterResult.collection ⟨filterFold p c.entries []⟩
  | _ => FilterResult.array (c.entries.foldl (fun rs e => if p e.2 e.1 then rs ++ [e] else rs) [])

/-- The (key, value) pairs held by a filter result, in any of its shapes. -/
def filterPairs : FilterResult K V → List (K × V)
  | FilterResult.array l => l
  | FilterResult.map l => l
  | FilterResult.collection col => col.entries

/-- CollectionEqualOptions. -/
structure EqualOptions where
  deep : Bool
deriving DecidableEq

/-- Whether an Except value is an error. -/
def isError {ε α : Type} : Except ε α → Bool
  | Except.error _ => true
  | Except.ok _ => false

/-- Collection.ts lines 152-171: equal. The argument other is none when the
caller passes null or undefined, refEq models the reference identity test
this === collection, and lodashIsEqual is the optionally present deep
equality capability of lines 10-14. -/
def Collection.equal [DecidableEq K] [DecidableEq V] (c : Collection K V)
    (other : Option (Collection K V)) (refEq : Bool) (options : EqualOptions)
    (lodashIsEqual : Option (V → V → Bool)) : Except String Bool :=
  match other with
  | none => Except.ok false
  | some col =>
    if c.size ≠ col.size then Except.ok false
    else if refEq then Except.ok true
    else
      match options.deep, lodashIsEqual with
      | true, none =>
        Except.error "Collection#equal: cannot perform deep equal without lodash installed"
      | true, some f =>
        Except.ok (c.entries.all (fun e =>
          match col.get? e.1 with
          | none => false
          | some w => f w e.2))
      | false, _ =>
        Except.ok (c.entries.all (fun e =>
          match col.get? e.1 with
          | none => false
          | some w => w == e.2))

/-- Collection.ts lines 177-191: concat. A none input element models a null
or non-Collection entry, skipped by the instanceof guard. -/
def Collection.concat [DecidableEq K] (c : Collection K V)
    (collections : List (Option (Collection K V))) : Collection K V :=
  collections.foldl
    (fun merged oc =>
      match oc with
      | none => merged
      | some col => ⟨col.entries.foldl (fun m e => setEntry m e.1 e.2) merged.entries⟩)
    c.clone

/-- The two return shapes of the positional operations: a single value
(undefined when the collection is empty) or an array. -/
inductive Positional (A : Type) where
  | one : Option A → Positional A
  | many : List A → Positional A
deriving DecidableEq

/-- Collection.ts lines 224-236: first. -/
def Collection.first (c : Collection K V) (amount : Option Nat) : Positional V :=
  match amount with
  | none => Positional.one c.valuesList.head?
  | some a =>
    if a ≤ 1 then Positional.one c.valuesList.head?
    else
      let values := c.valuesList
      Positional.many (values.take (min values.length a))

/-- Collection.ts lines 241-253: firstKey. -/
def Collection.firstKey (c : Collection K V) (amount : Option Nat) : Positional K :=
  match amount with
  | none => Positional.one c.keysList.head?
  | some a =>
    if a ≤ 1 then Positional.one c.keysList.head?
    else
      let keys := c.keysList
      Positional.many (keys.take (min keys.length a))

/-- Collection.ts lines 258-270: last; values.slice(-amt) keeps the trailing
amt elements, which is dropping all but the last amt. -/
def Collection.last (c : Collection K V) (amount : Option Nat) : Positional V :=
  let values := c.valuesList
  match amount with
  | none => Positional.one values.getLast?
  | some a =>
    if a ≤ 1 then Positional.one values.getLast?
    else
      let amt := min values.length a
      Positional.many (values.drop (values.length - amt))

/-- Collection.ts lines 275-287: lastKey. -/
def Collection.lastKey (c : Collection K V) (amount : Option Nat) : Positional K :=
  let keys := c.keysList
  match amount with
  | none => Positional.one keys.getLast?
  | some a =>
    if a ≤ 1 then Positional.one keys.getLast?
    else
      let amt := min keys.length a
      Positional.many (keys.drop (keys.length - amt))

/-- Written from the wording of the spec, section 4.1: threshold(size) is 80
for size up to 500, then 50 up to 1000, then 15. To be compared with the
nested conditional of Collection.ts line 42. -/
def thresholdSpec (size : Nat) : Nat :=
  if size ≤ 500 then 80 else if size ≤ 1000 then 50 else 15

/-! Helper lemmas about the shuffle of Algorithm A. -/

theorem getD_cons_set_perm :
    ∀ (t : List Nat) (m a : Nat), m < t.length →
      (t.getD m 0 :: t.set m a).Perm (a :: t) := by
  intro t
  induction t with
  | nil => intro m a h; simp at h
  | cons b t ih =>
    intro m a h
    cases m with
    | zero => simpa using List.Perm.swap a b t
    | succ m =>
      have hm : m < t.length := by simpa using h
      have step := ih m a hm
      have hrw : (b :: t).getD (m + 1) 0 :: (b :: t).set (m + 1) a
          = t.getD m 0 :: b :: t.set m a := by simp
      rw [hrw]
      exact (List.Perm.swap b _ _).trans ((step.cons b).trans (List.Perm.swap a b t))

theorem set_set_perm :
    ∀ (l : List Nat) (i j : Nat), i < l.length → j < l.length →
      ((l.set i (l.getD j 0)).set j (l.getD i 0)).Perm l := by
  intro l
  induction l with
  | nil => intro i j h; simp at h
  | cons a t ih =>
    intro i j hi hj
    cases i with
    | zero =>
      cases j with
      | zero => simp
      | succ m =>
        have hm : m < t.length := by simpa using hj
        simpa using getD_cons_set_perm t m a hm
    | succ n =>
      cases j with
      | zero =>
        have hn : n < t.length := by simpa using hi
        simpa using getD_cons_set_perm t n a hn
      | succ m =>
        have hn : n < t.length := by simpa using hi
        have hm : m < t.length := by simpa using hj
        simpa using (ih n m hn hm).cons a

theorem swap_perm (l : List Nat) (i j : Nat) : (swap l i j).Perm l := by
  unfold swap
  split
  · next h => exact set_set_perm l i j h.1 h.2
  · exact List.Perm.refl l

theorem foldl_swap_perm (f g : Nat → Nat) :
    ∀ (idxs : List Nat) (l : List Nat),
      (idxs.foldl (fun rn i => swap rn (f i) (g i)) l).Perm l := by
  intro idxs
  induction idxs with
  | nil => intro l; exact List.Perm.refl l
  | cons i rest ih =>
    intro l
    exact (ih (swap l (f i) (g i))).trans (swap_perm l (f i) (g i))

theorem shuffledNumbers_perm (draws : List Nat) (size : Nat) :
    (shuffledNumbers draws size).Perm (List.range (size + 1)) :=
  foldl_swap_perm (fun i => draws.getD i 0) (fun i => size - i) (List.range size)
    (range (size + 1))

theorem shuffledNumbers_nodup (draws : List Nat) (size : Nat) :
    (shuffledNumbers draws size).Nodup :=
  ((shuffledNumbers_perm draws size).nodup_iff).mpr (List.nodup_range _)

theorem shuffledNumbers_length (draws : List Nat) (size : Nat) :
    (shuffledNumbers draws size).length = size + 1 := by
  simpa using (shuffledNumbers_perm draws size).length_eq

theorem map_getD_range_eq_take :
    ∀ (n : Nat) (l : List Nat), n ≤ l.length →
      (List.range n).map (fun i => l.getD i 0) = l.take n := by
  intro n
  induction n with
  | zero => intro l _; simp
  | succ m ih =>
    intro l h
    cases l with
    | nil => simp at h
    | cons a t =>
      have ht : m ≤ t.length := by simpa using h
      have hf : ((fun i => (a :: t).getD i 0) ∘ Nat.succ) = (fun i => t.getD i 0) := by
        funext i
        simp
      rw [List.range_succ_eq_map, List.map_cons, List.map_map, List.take_succ_cons, hf, ih t ht]
      simp

theorem algorithmA_nodup (draws : List Nat) (size amount : Nat)
    (h : amount ≤ size + 1) : (algorithmA draws size amount).Nodup := by
  unfold algorithmA
  rw [map_getD_range_eq_take amount (shuffledNumbers draws size)
    (by rw [shuffledNumbers_length]; exact h)]
  exact (shuffledNumbers_nodup draws size).sublist (List.take_sublist _ _)

/-! Helper lemmas about the rejection sampling of Algorithm B. -/

theorem rejectionUnique_nodup (amount : Nat) :
    ∀ (draws acc : List Nat), acc.Nodup → (rejectionUnique amount draws acc).Nodup := by
  intro draws
  induction draws with
  | nil => intro acc h; simpa [rejectionUnique] using h
  | cons d rest ih =>
    intro acc h
    unfold rejectionUnique
    split
    · exact h
    · split
      · exact ih acc h
      · next hnot =>
        refine ih (acc ++ [d]) ?_
        simp [List.nodup_append, h, hnot]

theorem rejectionUnique_length (amount : Nat) :
    ∀ (draws acc : List Nat), acc.Nodup → acc.length ≤ amount →
      (rejectionUnique amount draws acc).length = min amount (acc ++ draws).toFinset.card := by
  intro draws
  induction draws with
  | nil =>
    intro acc hnd hle
    rw [List.append_nil]
    simp [rejectionUnique, List.toFinset_card_of_nodup hnd, Nat.min_eq_right hle]
  | cons d rest ih =>
    intro acc hnd hle
    unfold rejectionUnique
    split
    · next hfull =>
      have hacc : acc.length = amount := Nat.le_antisymm hle hfull
      have hsub : acc.toFinset ⊆ (acc ++ d :: rest).toFinset := by
        rw [List.toFinset_append]
        exact Finset.subset_union_left
      have hcard : amount ≤ (acc ++ d :: rest).toFinset.card := by
        calc amount = acc.toFinset.card := by rw [List.toFinset_card_of_nodup hnd, hacc]
          _ ≤ (acc ++ d :: rest).toFinset.card := Finset.card_le_card hsub
      rw [hacc, Nat.min_eq_left hcard]
    · split
      · next hmem =>
        have hset : (acc ++ d :: rest).toFinset = (acc ++ rest).toFinset := by
          ext x
          simp only [List.toFinset_append, Finset.mem_union, List.mem_toFinset, List.mem_cons]
          constructor
          · rintro (hx | hx | hx)
            · exact Or.inl hx
            · exact Or.inl (hx ▸ hmem)
            · exact Or.inr hx
          · rintro (hx | hx)
            · exact Or.inl hx
            · exact Or.inr (Or.inr hx)
        rw [hset] at *
        exact ih acc hnd hle
      · next hfull hmem =>
        have hnd2 : (acc ++ [d]).Nodup := by simp [List.nodup_append, hnd, hmem]
        have hle2 : (acc ++ [d]).length ≤ amount := by
          simp only [List.length_append, List.length_cons, List.length_nil]
          omega
        have := ih (acc ++ [d]) hnd2 hle2
        rw [List.append_assoc] at this
        simpa using this

/-! Helper lemmas about amount normalization and branch selection. -/

theorem clampAmount_eq_min (size n : Nat) (hsize : 1 ≤ size) (hn : 1 ≤ n) :
    clampAmount size (some n) = min n size := by
  simp only [clampAmount]
  split_ifs <;> omega

theorem clampAmount_none (size : Nat) : clampAmount size none = 1 := rfl

theorem randomIndices_length (draws : List Nat) (size amount : Nat) (unique : Bool)
    (h : amount ≤ draws.toFinset.card) :
    (randomIndices draws size amount unique).length = amount := by
  unfold randomIndices algorithmA algorithmB
  split
  · simp
  · split
    · have := rejectionUnique_length amount draws [] List.nodup_nil (Nat.zero_le _)
      simp only [List.nil_append] at this
      rw [this, Nat.min_eq_left h]
    · simp

/-! Helper lemmas about setEntry, filter and concat. -/

theorem setEntry_of_not_mem [DecidableEq K] :
    ∀ (m : List (K × V)) (k : K) (v : V), k ∉ m.map Prod.fst →
      setEntry m k v = m ++ [(k, v)] := by
  intro m
  induction m with
  | nil => intro k v _; rfl
  | cons e rest ih =>
    intro k v h
    have h1 : e.1 ≠ k := by
      intro hk
      exact h (by simp [hk])
    have h2 : k ∉ rest.map Prod.fst := by
      intro hk
      exact h (by simp [hk])
    simp [setEntry, h1, ih k v h2]

theorem foldl_push_eq_filter (p : V → K → Bool) :
    ∀ (l acc : List (K × V)),
      l.foldl (fun rs e => if p e.2 e.1 then rs ++ [e] else rs) acc
        = acc ++ l.filter (fun e => p e.2 e.1) := by
  intro l
  induction l with
  | nil => intro acc; simp
  | cons e rest ih =>
    intro acc
    by_cases hp : p e.2 e.1
    · simp [List.foldl_cons, hp, ih, List.filter_cons]
    · simp [List.foldl_cons, hp, ih, List.filter_cons]

theorem filterFold_eq_filter [DecidableEq K] (p : V → K → Bool) :
    ∀ (l acc : List (K × V)), (l.map Prod.fst).Nodup →
      (∀ k, k ∈ l.map Prod.fst → k ∉ acc.map Prod.fst) →
      filterFold p l acc = acc ++ l.filter (fun e => p e.2 e.1) := by
  intro l
  induction l with
  | nil => intro acc _ _; simp [filterFold]
  | cons e rest ih =>
    intro acc hnd hdisj
    have hnd1 : e.1 ∉ rest.map Prod.fst := by
      have := hnd
      simp only [List.map_cons, List.nodup_cons] at this
      exact this.1
    have hnd2 : (rest.map Prod.fst).Nodup := by
      have := hnd
      simp only [List.map_cons, List.nodup_cons] at this
      exact this.2
    by_cases hp : p e.2 e.1
    · have hset : setEntry acc e.1 e.2 = acc ++ [e] :=
        setEntry_of_not_mem acc e.1 e.2 (hdisj e.1 (by simp))
      have hdisj2 : ∀ k, k ∈ rest.map Prod.fst → k ∉ (acc ++ [e]).map Prod.fst := by
        intro k hk
        simp only [List.map_append, List.mem_append, List.map_cons, List.mem_singleton,
          List.map_nil, List.mem_cons]
        rintro (hka | hke)
        · exact hdisj k (by simp [hk]) hka
        · simp only [List.not_mem_nil, or_false] at hke
          exact hnd1 (hke ▸ hk)
      calc filterFold p (e :: rest) acc = filterFold p rest (acc ++ [e]) := by
            simp [filterFold, List.foldl_cons, hp, hset]
        _ = (acc ++ [e]) ++ rest.filter (fun x => p x.2 x.1) := ih (acc ++ [e]) hnd2 hdisj2
        _ = acc ++ (e :: rest).filter (fun x => p x.2 x.1) := by
            simp [List.filter_cons, hp]
    · have hdisj2 : ∀ k, k ∈ rest.map Prod.fst → k ∉ acc.map Prod.fst := by
        intro k hk
        exact hdisj k (by simp [hk])
      calc filterFold p (e :: rest) acc = filterFold p rest acc := by
            simp [filterFold, List.foldl_cons, hp]
        _ = acc ++ rest.filter (fun x => p x.2 x.1) := ih acc hnd2 hdisj2
        _ = acc ++ (e :: rest).filter (fun x => p x.2 x.1) := by
            simp [List.filter_cons, hp]

theorem lookupVal_setEntry_self [DecidableEq K] :
    ∀ (m : List (K × V)) (k : K) (v : V), lookupVal (setEntry m k v) k = some v := by
  intro m
  induction m with
  | nil => intro k v; simp [setEntry, lookupVal]
  | cons e rest ih =>
    intro k v
    by_cases h : e.1 = k
    · simp [setEntry, h, lookupVal]
    · rw [show setEntry (e :: rest) k v = e :: setEntry rest k v from by simp [setEntry, h]]
      unfold lookupVal
      rw [List.find?_cons_of_neg _ (by simpa using h)]
      exact ih k v

theorem lookupVal_setEntry_ne [DecidableEq K] (k2 : K) :
    ∀ (m : List (K × V)) (k : K) (v : V), k2 ≠ k →
      lookupVal (setEntry m k v) k2 = lookupVal m k2 := by
  intro m
  induction m with
  | nil =>
    intro k v hne
    unfold setEntry lookupVal
    rw [List.find?_cons_of_neg _ (by simpa using Ne.symm hne)]
  | cons e rest ih =>
    intro k v hne
    by_cases h : e.1 = k
    · rw [show setEntry (e :: rest) k v = (k, v) :: rest from by simp [setEntry, h]]
      unfold lookupVal
      rw [List.find?_cons_of_neg _ (by simpa using Ne.symm hne),
        List.find?_cons_of_neg _ (by simp [h]; exact Ne.symm hne)]
    · rw [show setEntry (e :: rest) k v = e :: setEntry rest k v from by simp [setEntry, h]]
      by_cases h2 : e.1 = k2
      · unfold lookupVal
        rw [List.find?_cons_of_pos _ (by simpa using h2),
          List.find?_cons_of_pos _ (by simpa using h2)]
      · unfold lookupVal
        rw [List.find?_cons_of_neg _ (by simpa using h2),
          List.find?_cons_of_neg _ (by simpa using h2)]
        exact ih k v hne

theorem foldl_setEntry_not_mem [DecidableEq K] (k : K) :
    ∀ (l : List (K × V)) (acc : List (K × V)), k ∉ l.map Prod.fst →
      lookupVal (l.foldl (fun m e => setEntry m e.1 e.2) acc) k = lookupVal acc k := by
  intro l
  induction l with
  | nil => intro acc _; rfl
  | cons e rest ih =>
    intro acc h
    have h1 : k ≠ e.1 := by
      intro hk
      exact h (by simp [hk])
    have h2 : k ∉ rest.map Prod.fst := by
      intro hk
      exact h (by simp [hk])
    rw [List.foldl_cons, ih (setEntry acc e.1 e.2) h2, lookupVal_setEntry_ne k acc e.1 e.2 h1]

theorem foldl_setEntry_lookup [DecidableEq K] (k : K) :
    ∀ (l : List (K × V)) (acc : List (K × V)), (l.map Prod.fst).Nodup →
      k ∈ l.map Prod.fst →
      lookupVal (l.foldl (fun m e => setEntry m e.1 e.2) acc) k = lookupVal l k := by
  intro l
  induction l with
  | nil => intro acc _ h; simp at h
  | cons e rest ih =>
    intro acc hnd hmem
    have hnd1 : e.1 ∉ rest.map Prod.fst := by
      have := hnd
      simp only [List.map_cons, List.nodup_cons] at this
      exact this.1
    have hnd2 : (rest.map Prod.fst).Nodup := by
      have := hnd
      simp only [List.map_cons, List.nodup_cons] at this
      exact this.2
    by_cases hk : k = e.1
    · have hrest : k ∉ rest.map Prod.fst := by rw [hk]; exact hnd1
      rw [List.foldl_cons, foldl_setEntry_not_mem k rest (setEntry acc e.1 e.2) hrest, hk,
        lookupVal_setEntry_self]
      unfold lookupVal
      rw [List.find?_cons_of_pos _ (by simp)]
      rfl
    · have hrest : k ∈ rest.map Prod.fst := by
        simp only [List.map_cons, List.mem_cons] at hmem
        exact hmem.resolve_left hk
      rw [List.foldl_cons, ih (setEntry acc e.1 e.2) hnd2 hrest]
      unfold lookupVal
      rw [List.find?_cons_of_neg _ (by simpa using Ne.symm hk)]

theorem valuesList_length (c : Collection K V) : c.valuesList.length = c.size := by
  simp [Collection.valuesList, Collection.size]

theorem keysList_length (c : Collection K V) : c.keysList.length = c.size := by
  simp [Collection.keysList, Collection.size]

theorem has_iff_mem [DecidableEq K] (c : Collection K V) (k : K) :
    c.has k = true ↔ k ∈ c.entries.map Prod.fst := by
  simp [Collection.has, List.any_eq_true, List.mem_map]

theorem concat_post_preserve [DecidableEq K] (k : K) :
    ∀ (post : List (Option (Collection K V))) (M : Collection K V),
      (∀ col : Collection K V, some col ∈ post → col.has k = false) →
      (post.foldl
        (fun merged oc =>
          match oc with
          | none => merged
          | some col => ⟨col.entries.foldl (fun m e => setEntry m e.1 e.2) merged.entries⟩)
        M).get? k = M.get? k := by
  intro post
  induction post with
  | nil => intro M _; rfl
  | cons oc rest ih =>
    intro M h
    cases oc with
    | none =>
      rw [List.foldl_cons]
      exact ih M (fun col hc => h col (by simp [hc]))
    | some col =>
      have hcol : col.has k = false := h col (by simp)
      have hkcol : k ∉ col.entries.map Prod.fst := by
        intro hk
        have : col.has k = true := (has_iff_mem col k).mpr hk
        rw [hcol] at this
        exact Bool.false_ne_true this
      rw [List.foldl_cons, ih _ (fun col2 hc => h col2 (by simp [hc]))]
      show lookupVal (col.entries.foldl (fun m e => setEntry m e.1 e.2) M.entries) k
        = M.get? k
      rw [foldl_setEntry_not_mem k col.entries M.entries hkcol]
      rfl

/-! The claims. -/

/-- C1: for every non-empty collection and every positive n, random(n) returns
exactly min(n, size) values and random() with no amount returns exactly one
value. The draw list stands for the random source; it is assumed to offer at
least min(n, size) distinct values, which the JS random source produces with
probability one (the rejection loop of Algorithm B would otherwise not
terminate at all). -/
theorem random_returns_min_count (c : Collection K V) (n : Nat) (opts : RandomOptions)
    (draws : List Nat) (hsize : 1 ≤ c.size) (hn : 1 ≤ n)
    (hdraws : min n c.size ≤ draws.toFinset.card) :
    countValues (c.random (some n) opts draws) = min n c.size
    ∧ countValues (c.random none opts draws) = 1 := by
  constructor
  · simp only [Collection.random]
    rw [if_neg (show ¬c.size < 1 by omega), clampAmount_eq_min c.size n hsize hn]
    by_cases hle : min n c.size ≤ 1
    · rw [if_pos hle]
      simp only [countValues]
      omega
    · rw [if_neg hle]
      simp only [countValues, List.length_map]
      exact randomIndices_length draws c.size (min n c.size) opts.unique hdraws
  · simp only [Collection.random]
    rw [if_neg (show ¬c.size < 1 by omega)]
    simp [clampAmount, countValues]

/-- C1 witness: a two-entry collection, n = 3, unique sampling, draws [1, 0]. -/
theorem random_returns_min_count_witness :
    (1 ≤ (⟨[(1, 10), (2, 20)]⟩ : Collection Nat Nat).size
      ∧ 1 ≤ 3
      ∧ min 3 (⟨[(1, 10), (2, 20)]⟩ : Collection Nat Nat).size
          ≤ ([1, 0] : List Nat).toFinset.card)
    ∧ (countValues ((⟨[(1, 10), (2, 20)]⟩ : Collection Nat Nat).random (some 3) ⟨true⟩ [1, 0])
          = min 3 (⟨[(1, 10), (2, 20)]⟩ : Collection Nat Nat).size
      ∧ countValues ((⟨[(1, 10), (2, 20)]⟩ : Collection Nat Nat).random none ⟨true⟩ [1, 0])
          = 1) :=
  ⟨⟨by decide, by decide, by decide⟩,
    random_returns_min_count (⟨[(1, 10), (2, 20)]⟩ : Collection Nat Nat) 3 ⟨true⟩ [1, 0]
      (by decide) (by decide) (by decide)⟩

/-- C2: with unique:true and 1 ≤ n ≤ size, the slot indices backing the result
of random(n, {unique:true}) are pairwise distinct, whichever of the two
algorithm branches the size/amount ratio selects. -/
theorem random_unique_slots_nodup (c : Collection K V) (n : Nat) (draws : List Nat)
    (h1 : 1 ≤ n) (h2 : n ≤ c.size) :
    (randomIndices draws c.size (clampAmount c.size (some n)) true).Nodup := by
  have hsz : 1 ≤ c.size := le_trans h1 h2
  rw [clampAmount_eq_min c.size n hsz h1, Nat.min_eq_left h2]
  unfold randomIndices
  split
  · exact algorithmA_nodup draws c.size n (by omega)
  · unfold algorithmB
    rw [if_pos rfl]
    exact rejectionUnique_nodup n draws [] List.nodup_nil

/-- C2 witness: a three-entry collection, n = 2, draws [0, 1, 0]. -/
theorem random_unique_slots_nodup_witness :
    (1 ≤ 2 ∧ 2 ≤ (⟨[(1, 10), (2, 20), (3, 30)]⟩ : Collection Nat Nat).size)
    ∧ (randomIndices [0, 1, 0] (⟨[(1, 10), (2, 20), (3, 30)]⟩ : Collection Nat Nat).size
        (clampAmount (⟨[(1, 10), (2, 20), (3, 30)]⟩ : Collection Nat Nat).size (some 2))
        true).Nodup :=
  ⟨⟨by decide, by decide⟩,
    random_unique_slots_nodup (⟨[(1, 10), (2, 20), (3, 30)]⟩ : Collection Nat Nat) 2 [0, 1, 0]
      (by decide) (by decide)⟩

/-- C3 (code bug): on the one-entry collection [(0, 5)], random(1, {unique:true})
deterministically selects Algorithm A (density 100 > 80). Its shuffled index
array is a permutation of range(size + 1) = [0, 1]; the single shuffle step
must draw 0 (Math.floor(Math.random() * 1) = 0) and swaps it with position 1,
so slot 1 = size lands first and the call returns arr[1], i.e. undefined
(none), which is not a value of the collection. -/
theorem random_unique_singleton_undefined :
    Collection.random (⟨[(0, 5)]⟩ : Collection Nat Nat) (some 1) ⟨true⟩ [0]
      = Except.ok (RandomResult.single none) := rfl

/-- C4: the partial-shuffle branch (Algorithm A) is selected exactly when
floor(amount * 100 / size) exceeds the threshold 80 / 50 / 15 of the spec
table and unique is requested; otherwise Algorithm B runs. -/
theorem random_branch_selection (draws : List Nat) (size amount : Nat) (unique : Bool) :
    randomIndices draws size amount unique =
      if amount * 100 / size > thresholdSpec size ∧ unique = true
      then algorithmA draws size amount
      else algorithmB draws amount unique := by
  have hth : (if size > 500 then if size > 1000 then 15 else 50 else 80) = thresholdSpec size := by
    unfold thresholdSpec
    split_ifs <;> omega
  unfold randomIndices largeAmount
  rw [hth]
  exact if_congr (by simp) rfl rfl

/-- C5: random raises the empty-collection error exactly when size = 0, with
the error surfaced directly; every non-empty collection yields a result. -/
theorem random_empty_error (c : Collection K V) (amountArg : Option Nat)
    (opts : RandomOptions) (draws : List Nat) :
    ((∃ msg, c.random amountArg opts draws = Except.error msg) ↔ c.size = 0)
    ∧ (c.size = 0 →
        c.random amountArg opts draws
          = Except.error "Collection#random: Cannot get random elements from the empty collection") := by
  by_cases h : c.size = 0
  · refine ⟨⟨fun _ => h,
      fun _ => ⟨"Collection#random: Cannot get random elements from the empty collection",
        by simp [Collection.random, h]⟩⟩,
      fun _ => by simp [Collection.random, h]⟩
  · refine ⟨⟨?_, fun hc => absurd hc h⟩, fun hc => absurd hc h⟩
    rintro ⟨msg, hmsg⟩
    exfalso
    revert hmsg
    simp only [Collection.random]
    rw [if_neg (by omega)]
    split <;> simp

/-- C5 witness: the empty collection raises the error. -/
theorem random_empty_error_witness :
    Collection.random (⟨[]⟩ : Collection Nat Nat) none ⟨false⟩ []
      = Except.error "Collection#random: Cannot get random elements from the empty collection" :=
  (random_empty_error (⟨[]⟩ : Collection Nat Nat) none ⟨false⟩ []).2 rfl

/-- C6: filter with the array, map and collection return shapes yields the
same list of (key, value) pairs in all three representations (hence the same
set), and omitting the return option selects the array shape. The key
uniqueness hypothesis is the JS Map invariant. -/
theorem filter_shapes_agree [DecidableEq K] (c : Collection K V) (p : V → K → Bool)
    (h : c.keysList.Nodup) :
    filterPairs (c.filter p ⟨some FilterReturn.array⟩)
        = filterPairs (c.filter p ⟨some FilterReturn.map⟩)
    ∧ filterPairs (c.filter p ⟨some FilterReturn.map⟩)
        = filterPairs (c.filter p ⟨some FilterReturn.collection⟩)
    ∧ c.filter p ⟨none⟩ = c.filter p ⟨some FilterReturn.array⟩ := by
  have hnd : (c.entries.map Prod.fst).Nodup := h
  have hmap : filterFold p c.entries [] = c.entries.filter (fun e => p e.2 e.1) := by
    have := filterFold_eq_filter p c.entries [] hnd (by intro k _; simp)
    simpa using this
  have harr : c.entries.foldl (fun rs e => if p e.2 e.1 then rs ++ [e] else rs) []
      = c.entries.filter (fun e => p e.2 e.1) := by
    simpa using foldl_push_eq_filter p c.entries []
  refine ⟨?_, ?_, rfl⟩
  · simp [Collection.filter, filterPairs, hmap, harr]
  · simp [Collection.filter, filterPairs, hmap]

/-- C6 witness: a three-entry collection filtered for even values. -/
theorem filter_shapes_agree_witness :
    (⟨[(1, 10), (2, 21), (3, 30)]⟩ : Collection Nat Nat).keysList.Nodup
    ∧ (filterPairs ((⟨[(1, 10), (2, 21), (3, 30)]⟩ : Collection Nat Nat).filter
            (fun v _ => v % 2 == 0) ⟨some FilterReturn.array⟩)
          = filterPairs ((⟨[(1, 10), (2, 21), (3, 30)]⟩ : Collection Nat Nat).filter
            (fun v _ => v % 2 == 0) ⟨some FilterReturn.map⟩)
      ∧ filterPairs ((⟨[(1, 10), (2, 21), (3, 30)]⟩ : Collection Nat Nat).filter
            (fun v _ => v % 2 == 0) ⟨some FilterReturn.map⟩)
          = filterPairs ((⟨[(1, 10), (2, 21), (3, 30)]⟩ : Collection Nat Nat).filter
            (fun v _ => v % 2 == 0) ⟨some FilterReturn.collection⟩)
      ∧ (⟨[(1, 10), (2, 21), (3, 30)]⟩ : Collection Nat Nat).filter
            (fun v _ => v % 2 == 0) ⟨none⟩
          = (⟨[(1, 10), (2, 21), (3, 30)]⟩ : Collection Nat Nat).filter
            (fun v _ => v % 2 == 0) ⟨some FilterReturn.array⟩) :=
  ⟨by decide,
    filter_shapes_agree (⟨[(1, 10), (2, 21), (3, 30)]⟩ : Collection Nat Nat)
      (fun v _ => v % 2 == 0) (by decide)⟩

/-- C7: when b appears among the concatenated collections, shares key k with
the receiver and no later input collection holds k (the later collection wins
on collisions), the merged collection maps k to the value of b. The JS Map
key-uniqueness invariant of b is assumed; concat itself is pure in the model,
touching neither the receiver nor its inputs. -/
theorem concat_later_wins [DecidableEq K] (c b : Collection K V)
    (pre post : List (Option (Collection K V))) (k : K)
    (hb : b.keysList.Nodup) (hbk : b.has k = true) (_hck : c.has k = true)
    (hpost : ∀ col : Collection K V, some col ∈ post → col.has k = false) :
    (c.concat (pre ++ some b :: post)).get? k = b.get? k := by
  have hkb : k ∈ b.entries.map Prod.fst := (has_iff_mem b k).mp hbk
  have hbnd : (b.entries.map Prod.fst).Nodup := hb
  simp only [Collection.concat, List.foldl_append, List.foldl_cons]
  rw [concat_post_preserve k post _ hpost]
  show lookupVal (b.entries.foldl (fun m e => setEntry m e.1 e.2) _) k
    = lookupVal b.entries k
  exact foldl_setEntry_lookup k b.entries _ hbnd hkb

/-- C7 witness: the receiver and b share key 2; the merged value at 2 is 99,
from b. -/
theorem concat_later_wins_witness :
    ((⟨[(2, 99), (4, 40)]⟩ : Collection Nat Nat).keysList.Nodup
      ∧ (⟨[(2, 99), (4, 40)]⟩ : Collection Nat Nat).has 2 = true
      ∧ (⟨[(1, 10), (2, 20)]⟩ : Collection Nat Nat).has 2 = true)
    ∧ ((⟨[(1, 10), (2, 20)]⟩ : Collection Nat Nat).concat
          [some (⟨[(2, 99), (4, 40)]⟩ : Collection Nat Nat)]).get? 2
        = (⟨[(2, 99), (4, 40)]⟩ : Collection Nat Nat).get? 2 :=
  ⟨⟨by decide, by decide, by decide⟩,
    concat_later_wins (⟨[(1, 10), (2, 20)]⟩ : Collection Nat Nat)
      (⟨[(2, 99), (4, 40)]⟩ : Collection Nat Nat) [] [] 2
      (by decide) (by decide) (by decide) (by simp)⟩

/-- C8: for n at least 2, first(n)/firstKey(n) return the leading
min(n, size) values/keys in insertion order and last(n)/lastKey(n) the
trailing ones, each of length exactly min(n, size); for amounts at most 1
the single leading/trailing element is returned. -/
theorem positional_clamped (c : Collection K V) (n m : Nat) (hn : 2 ≤ n) (hm : m ≤ 1) :
    c.first (some n) = Positional.many (c.valuesList.take (min n c.size))
    ∧ c.firstKey (some n) = Positional.many (c.keysList.take (min n c.size))
    ∧ c.last (some n) = Positional.many (c.valuesList.drop (c.size - min n c.size))
    ∧ c.lastKey (some n) = Positional.many (c.keysList.drop (c.size - min n c.size))
    ∧ (c.valuesList.take (min n c.size)).length = min n c.size
    ∧ (c.valuesList.drop (c.size - min n c.size)).length = min n c.size
    ∧ c.first (some m) = Positional.one c.valuesList.head?
    ∧ c.firstKey (some m) = Positional.one c.keysList.head?
    ∧ c.last (some m) = Positional.one c.valuesList.getLast?
    ∧ c.lastKey (some m) = Positional.one c.keysList.getLast? := by
  have hv : c.valuesList.length = c.size := valuesList_length c
  have hk : c.keysList.length = c.size := keysList_length c
  have h1 : ¬n ≤ 1 := by omega
  refine ⟨?_, ?_, ?_, ?_, ?_, ?_, ?_, ?_, ?_, ?_⟩
  · simp [Collection.first, h1, hv, Nat.min_comm]
  · simp [Collection.firstKey, h1, hk, Nat.min_comm]
  · simp [Collection.last, h1, hv, Nat.min_comm]
  · simp [Collection.lastKey, h1, hk, Nat.min_comm]
  · simp only [List.length_take, hv]
    omega
  · simp only [List.length_drop, hv]
    omega
  · simp [Collection.first, hm]
  · simp [Collection.firstKey, hm]
  · simp [Collection.last, hm]
  · simp [Collection.lastKey, hm]

/-- C8 witness: the collection of the spec example, n = 2 and m = 1. -/
theorem positional_clamped_witness :
    (2 ≤ 2 ∧ 1 ≤ 1)
    ∧ ((⟨[(1, 10), (2, 20), (3, 30)]⟩ : Collection Nat Nat).first (some 2)
          = Positional.many ((⟨[(1, 10), (2, 20), (3, 30)]⟩ : Collection Nat Nat).valuesList.take
              (min 2 (⟨[(1, 10), (2, 20), (3, 30)]⟩ : Collection Nat Nat).size))
      ∧ (⟨[(1, 10), (2, 20), (3, 30)]⟩ : Collection Nat Nat).firstKey (some 2)
          = Positional.many ((⟨[(1, 10), (2, 20), (3, 30)]⟩ : Collection Nat Nat).keysList.take
              (min 2 (⟨[(1, 10), (2, 20), (3, 30)]⟩ : Collection Nat Nat).size))
      ∧ (⟨[(1, 10), (2, 20), (3, 30)]⟩ : Collection Nat Nat).last (some 2)
          = Positional.many ((⟨[(1, 10), (2, 20), (3, 30)]⟩ : Collection Nat Nat).valuesList.drop
              ((⟨[(1, 10), (2, 20), (3, 30)]⟩ : Collection Nat Nat).size
                - min 2 (⟨[(1, 10), (2, 20), (3, 30)]⟩ : Collection Nat Nat).size))
      ∧ (⟨[(1, 10), (2, 20), (3, 30)]⟩ : Collection Nat Nat).lastKey (some 2)
          = Positional.many ((⟨[(1, 10), (2, 20), (3, 30)]⟩ : Collection Nat Nat).keysList.drop
              ((⟨[(1, 10), (2, 20), (3, 30)]⟩ : Collection Nat Nat).size
                - min 2 (⟨[(1, 10), (2, 20), (3, 30)]⟩ : Collection Nat Nat).size))
      ∧ ((⟨[(1, 10), (2, 20), (3, 30)]⟩ : Collection Nat Nat).valuesList.take
            (min 2 (⟨[(1, 10), (2, 20), (3, 30)]⟩ : Collection Nat Nat).size)).length
          = min 2 (⟨[(1, 10), (2, 20), (3, 30)]⟩ : Collection Nat Nat).size
      ∧ ((⟨[(1, 10), (2, 20), (3, 30)]⟩ : Collection Nat Nat).valuesList.drop
            ((⟨[(1, 10), (2, 20), (3, 30)]⟩ : Collection Nat Nat).size
              - min 2 (⟨[(1, 10), (2, 20), (3, 30)]⟩ : Collection Nat Nat).size)).length
          = min 2 (⟨[(1, 10), (2, 20), (3, 30)]⟩ : Collection Nat Nat).size
      ∧ (⟨[(1, 10), (2, 20), (3, 30)]⟩ : Collection Nat Nat).first (some 1)
          = Positional.one (⟨[(1, 10), (2, 20), (3, 30)]⟩ : Collection Nat Nat).valuesList.head?
      ∧ (⟨[(1, 10), (2, 20), (3, 30)]⟩ : Collection Nat Nat).firstKey (some 1)
          = Positional.one (⟨[(1, 10), (2, 20), (3, 30)]⟩ : Collection Nat Nat).keysList.head?
      ∧ (⟨[(1, 10), (2, 20), (3, 30)]⟩ : Collection Nat Nat).last (some 1)
          = Positional.one (⟨[(1, 10), (2, 20), (3, 30)]⟩ : Collection Nat Nat).valuesList.getLast?
      ∧ (⟨[(1, 10), (2, 20), (3, 30)]⟩ : Collection Nat Nat).lastKey (some 1)
          = Positional.one (⟨[(1, 10), (2, 20), (3, 30)]⟩ : Collection Nat Nat).keysList.getLast?) :=
  ⟨⟨by decide, by decide⟩,
    positional_clamped (⟨[(1, 10), (2, 20), (3, 30)]⟩ : Collection Nat Nat) 2 1
      (by decide) (by decide)⟩

/-- C9 counterexample: with deep:true requested and no deep-equality
capability registered, equal against a collection of a different size returns
false instead of raising, because the size comparison short-circuits before
the capability check; so the error is not raised if and only if the
capability is missing. -/
theorem equal_deep_missing_capability_no_raise :
    Collection.equal (⟨[(1, 2)]⟩ : Collection Nat Nat) (some ⟨[]⟩) false ⟨true⟩ none
      = Except.ok false := rfl

/-- C9 amended: equal(other, {deep:true}) raises the missing-capability error
exactly when no capability is registered, the sizes agree and the argument is
not the receiver itself (neither short-circuit fires); with deep false or
absent it never raises and compares values with strict identity equality
(the call behaves as if the strict comparison were the registered
capability). -/
theorem equal_deep_error_characterization [DecidableEq K] [DecidableEq V]
    (c : Collection K V) (other : Option (Collection K V)) (refEq : Bool)
    (options : EqualOptions) (cap : Option (V → V → Bool)) :
    (isError (c.equal other refEq options cap) = true
      ↔ (options.deep = true ∧ cap = none ∧ refEq = false
          ∧ ∃ col, other = some col ∧ c.size = col.size))
    ∧ (options.deep = false →
        c.equal other refEq options cap
          = c.equal other refEq ⟨true⟩ (some (fun a b => a == b))) := by
  obtain ⟨deep⟩ := options
  cases other with
  | none => exact ⟨by simp [Collection.equal, isError], fun _ => rfl⟩
  | some col =>
    by_cases hs : c.size = col.size
    · cases refEq with
      | true =>
        constructor
        · simp [Collection.equal, hs, isError]
        · intro _
          simp [Collection.equal, hs]
      | false =>
        cases deep with
        | false =>
          constructor
          · simp [Collection.equal, hs, isError]
          · intro _
            simp [Collection.equal, hs]
        | true =>
          cases cap with
          | none =>
            constructor
            · constructor
              · intro _
                exact ⟨rfl, rfl, rfl, col, rfl, hs⟩
              · intro _
                simp [Collection.equal, hs, isError]
            · intro hd
              exact absurd hd (by simp)
          | some f =>
            constructor
            · simp [Collection.equal, hs, isError]
            · intro hd
              exact absurd hd (by simp)
    · constructor
      · simp only [Collection.equal, if_pos (show c.size ≠ col.size from hs), isError]
        simp
        rintro - - - hsz
        exact hs hsz
      · intro _
        simp [Collection.equal, hs]

/-- C9 witness for the amended claim: deep:true, no capability, matching
sizes and no aliasing raises the error. -/
theorem equal_deep_error_characterization_witness :
    isError (Collection.equal (⟨[(1, 5)]⟩ : Collection Nat Nat) (some ⟨[(2, 6)]⟩)
        false ⟨true⟩ none) = true :=
  (equal_deep_error_characterization (⟨[(1, 5)]⟩ : Collection Nat Nat) (some ⟨[(2, 6)]⟩)
      false ⟨true⟩ none).1.mpr ⟨rfl, rfl, rfl, ⟨[(2, 6)]⟩, rfl, rfl⟩

/-- C10: equal called with a null or undefined argument returns false rather
than throwing, for every collection and option set: the optional access makes
the size comparison fail, never equating a number with undefined. -/
theorem equal_null_returns_false [DecidableEq K] [DecidableEq V] (c : Collection K V)
    (refEq : Bool) (options : EqualOptions) (cap : Option (V → V → Bool)) :
    c.equal none refEq options cap = Except.ok false := rfl

end Ddoo
